import Mathlib

/-!
# Content Guardian — verification of the controller and module contract

Shallow embedding of the `content-guardian` TypeScript repository:
the data model (`ModuleStatus`, `ModuleResult`, `ContentInput`, …), the
controller (`runModule`, `runWorkflow` in `ContentGuardianController.ts`),
the shared module contract (`BaseModule.ts`: `validateInput`,
`createMetadata`, `createResult`), and the completion-parsing of
`FactCheckLayer.ts` (status-token extraction and recommended-fixes
extraction, mirroring the JavaScript regular-expression semantics).

JavaScript strings are embedded as `String`/`List Char`; `undefined`-able
values as `Option`; thrown exceptions as `Except String`; the `x || d`
idiom (which treats the empty string and `false` as falsy) as `jsOr` /
`jsTruthy`.
-/

/-- JS `a || d` on an optional string: `undefined` and `""` are falsy. -/
def jsOr (s : Option String) (d : String) : String :=
  match s with
  | none => d
  | some v => if v = "" then d else v

/-- JS truthiness of an optional boolean (`undefined` is falsy). -/
def jsTruthy (b : Option Bool) : Bool :=
  match b with
  | none => false
  | some v => v

/-- `ModuleStatus` from `ModuleInterfaces.ts`. -/
inductive ModuleStatus where
  | success
  | warning
  | error
deriving DecidableEq, Repr

/-- `ModuleMetadata` from `ModuleInterfaces.ts`. -/
structure ModuleMetadata where
  timestamp : String
  promptUsed : String
  modelVersion : String
deriving DecidableEq, Repr

/-- `ModuleResult` from `ModuleInterfaces.ts`; `recommendedFixes` is an
optional field, `none` meaning the field is absent from the object. -/
structure ModuleResult where
  moduleId : String
  status : ModuleStatus
  report : String
  recommendedFixes : Option (List String)
  metadata : ModuleMetadata
deriving DecidableEq, Repr

/-- `ContentInput` from `ModuleInterfaces.ts` (the fields the embedded code
reads; `contentType` is kept as an optional string). -/
structure ContentInput where
  content : String
  title : Option String := none
  author : Option String := none
  targetAudience : Option String := none
  contentType : Option String := none
deriving DecidableEq, Repr

/-- `ModuleOptions` from `ModuleInterfaces.ts`. -/
structure ModuleOptions where
  verbose : Option Bool := none
  maxTokens : Option Nat := none
  model : Option String := none
  customPrompt : Option String := none
deriving DecidableEq, Repr

/-- `ContentGuardianModule` (the interface a registered module implements):
`process` may throw, which is embedded as `Except.error` carrying the
exception message. -/
structure ContentGuardianModule where
  moduleId : String
  process : ContentInput → Option ModuleOptions → Except String ModuleResult

/-- The controller's registry `modules: Map<string, ContentGuardianModule>`,
embedded as a lookup function. -/
def Registry : Type := String → Option ContentGuardianModule

/-- `WorkflowOptions` from `ModuleInterfaces.ts`; `options` embeds the
per-module-id record `workflowOptions.options?.[moduleId]`. -/
structure WorkflowOptions where
  modules : List String
  sequential : Option Bool := none
  stopOnError : Option Bool := none
  options : String → Option ModuleOptions := fun _ => none

/-- `ContentGuardianController.runModule`: throws (`Except.error`) exactly
when the id is unregistered; otherwise delegates to `process`, converting an
escaping exception into an `error` `ModuleResult`. `now` stands for the
`new Date().toISOString()` timestamp. -/
def runModule (reg : Registry) (moduleId : String) (input : ContentInput)
    (options : Option ModuleOptions) (now : String) : Except String ModuleResult :=
  match reg moduleId with
  | none => Except.error ("Module " ++ moduleId ++ " not found")
  | some m =>
    match m.process input options with
    | Except.ok result => Except.ok result
    | Except.error msg =>
      Except.ok
        { moduleId := moduleId
          status := ModuleStatus.error
          report := "Error running module: " ++ msg
          recommendedFixes := none
          metadata :=
            { timestamp := now
              promptUsed := jsOr (options.bind ModuleOptions.customPrompt) "default"
              modelVersion := jsOr (options.bind ModuleOptions.model) "default-model" } }

/-- The sequential loop of `runWorkflow` (the `for … of` over
`workflowOptions.modules`), carrying the accumulated `results`, the running
`overallStatus`, and — as an observer of the execution — the list of module
ids for which the per-module call site was reached. -/
def runSeq (reg : Registry) (input : ContentInput) (wo : WorkflowOptions) (now : String) :
    List String → List ModuleResult → ModuleStatus → List String →
    List ModuleResult × ModuleStatus × List String
  | [], results, overallStatus, invoked => (results, overallStatus, invoked)
  | moduleId :: rest, results, overallStatus, invoked =>
    let moduleOptions := wo.options moduleId
    match runModule reg moduleId input moduleOptions now with
    | Except.ok result =>
      if result.status = ModuleStatus.error then
        if jsTruthy wo.stopOnError then
          (results ++ [result], ModuleStatus.error, invoked ++ [moduleId])
        else
          runSeq reg input wo now rest (results ++ [result]) ModuleStatus.error
            (invoked ++ [moduleId])
      else
        let overallStatus2 :=
          if result.status = ModuleStatus.warning ∧ overallStatus ≠ ModuleStatus.error then
            ModuleStatus.warning
          else overallStatus
        runSeq reg input wo now rest (results ++ [result]) overallStatus2
          (invoked ++ [moduleId])
    | Except.error _ =>
      if jsTruthy wo.stopOnError then
        (results, ModuleStatus.error, invoked ++ [moduleId])
      else
        runSeq reg input wo now rest results overallStatus (invoked ++ [moduleId])

/-- `Except` success test (`result.isOk`). -/
def exceptOk {ε α : Type} : Except ε α → Bool
  | Except.ok _ => true
  | Except.error _ => false

/-- The successful value of an `Except`, if any. -/
def exceptValue {ε α : Type} : Except ε α → Option α
  | Except.ok a => some a
  | Except.error _ => none

/-- The parallel branch of `runWorkflow`: all modules are dispatched; if
every promise resolves, the results are pushed and the worst-of status is
computed; if `Promise.all` rejects, `results` stays empty and the status is
forced to `error`. -/
def runPar (reg : Registry) (input : ContentInput) (wo : WorkflowOptions) (now : String) :
    List ModuleResult × ModuleStatus × List String :=
  let outcomes := wo.modules.map fun moduleId =>
    runModule reg moduleId input (wo.options moduleId) now
  if outcomes.all exceptOk then
    let results := outcomes.filterMap exceptValue
    let overallStatus :=
      if results.any fun r => r.status = ModuleStatus.error then ModuleStatus.error
      else if results.any fun r => r.status = ModuleStatus.warning then ModuleStatus.warning
      else ModuleStatus.success
    (results, overallStatus, wo.modules)
  else
    ([], ModuleStatus.error, wo.modules)

/-- The observable outcome of `runWorkflow`: the final status, the collected
results, and the module ids whose call site was reached (uuid, timestamp and
summary text carry no decision logic and are omitted). -/
structure WorkflowRun where
  status : ModuleStatus
  results : List ModuleResult
  invoked : List String
deriving DecidableEq, Repr

/-- `ContentGuardianController.runWorkflow`: the mode test is the JS
truthiness check `if (workflowOptions.sequential)`. -/
def runWorkflow (reg : Registry) (input : ContentInput) (wo : WorkflowOptions)
    (now : String) : WorkflowRun :=
  if jsTruthy wo.sequential then
    let t := runSeq reg input wo now wo.modules [] ModuleStatus.success []
    ⟨t.2.1, t.1, t.2.2⟩
  else
    let t := runPar reg input wo now
    ⟨t.2.1, t.1, t.2.2⟩

/-- Worst-of aggregation over a list of module results, as the spec states
it: `error` dominates `warning` dominates `success`. -/
def worstOf (results : List ModuleResult) : ModuleStatus :=
  if results.any fun r => r.status = ModuleStatus.error then ModuleStatus.error
  else if results.any fun r => r.status = ModuleStatus.warning then ModuleStatus.warning
  else ModuleStatus.success

/-- Whitespace test used for `trim` and `\s`. -/
def isWs (c : Char) : Bool := c.isWhitespace

/-- `String.prototype.trim` on a character list: drop whitespace from both
ends. -/
def trimChars (s : List Char) : List Char :=
  List.rdropWhile isWs (List.dropWhile isWs s)

/-- `String.prototype.trim` (embedded at character level, so that it
computes by kernel reduction). -/
def trimString (s : String) : String := String.mk (trimChars s.toList)

/-- `BaseModule.validateInput`: JS
`!input || !input.content || input.content.trim() === ''` negated —
the empty string is falsy, so validity means a non-empty post-trim content. -/
def validateInput (input : ContentInput) : Bool :=
  !(input.content = "" || trimString input.content = "")

/-- `BaseModule.createMetadata`: `promptUsed` is
`options?.customPrompt || this.getDefaultPrompt()` and `modelVersion` is
`options?.model || 'default-model'`. -/
def createMetadata (defaultPrompt : String) (options : Option ModuleOptions)
    (now : String) : ModuleMetadata :=
  { timestamp := now
    promptUsed := jsOr (options.bind ModuleOptions.customPrompt) defaultPrompt
    modelVersion := jsOr (options.bind ModuleOptions.model) "default-model" }

/-- `BaseModule.createResult`: the `recommendedFixes` field is set only when
`recommendedFixes && recommendedFixes.length > 0`. -/
def createResult (moduleId : String) (status : ModuleStatus) (report : String)
    (recommendedFixes : Option (List String)) (metadata : ModuleMetadata) : ModuleResult :=
  { moduleId := moduleId
    status := status
    report := report
    recommendedFixes :=
      match recommendedFixes with
      | some fixes => if fixes.length > 0 then some fixes else none
      | none => none
    metadata := metadata }

/-- The per-module data of the uniform module implementation: id, default
prompt template, the fixed fixes of the invalid-input result, the prefix of
the catch-branch report with its fixed fixes, and the completion parser. -/
structure ModuleConfig where
  moduleId : String
  defaultPrompt : String
  invalidInputFixes : List String
  catchReportPrefix : String
  catchFixes : List String
  parse : String → String × ModuleStatus × List String

/-- `preparePrompt` (identical template in every module): wraps the custom
or default prompt together with a rendered content block. -/
def preparePrompt (defaultPrompt : String) (input : ContentInput)
    (options : Option ModuleOptions) : String :=
  let customPrompt := jsOr (options.bind ModuleOptions.customPrompt) defaultPrompt
  "\n" ++ customPrompt ++ "\n\nCONTENT TO ANALYZE:\nTitle: "
    ++ jsOr input.title "Untitled" ++ "\nAuthor: " ++ jsOr input.author "Unknown"
    ++ "\nContent Type: " ++ jsOr input.contentType "Unknown"
    ++ "\n\n" ++ input.content ++ "\n    "

/-- The uniform `process` body shared by the ten modules (validate → compose
prompt → call the completion provider → parse → package), instrumented with
the number of provider calls made. A provider failure is the caught
exception of the `try`/`catch`. -/
def moduleProcess (cfg : ModuleConfig) (provider : String → Except String String)
    (input : ContentInput) (options : Option ModuleOptions) (now : String) :
    ModuleResult × Nat :=
  if !validateInput input then
    (createResult cfg.moduleId ModuleStatus.error "Invalid input: content is required"
      (some cfg.invalidInputFixes) (createMetadata cfg.defaultPrompt options now), 0)
  else
    let prompt := preparePrompt cfg.defaultPrompt input options
    match provider prompt with
    | Except.ok completion =>
      let (report, status, recommendedFixes) := cfg.parse completion
      (createResult cfg.moduleId status report (some recommendedFixes)
        (createMetadata cfg.defaultPrompt options now), 1)
    | Except.error msg =>
      (createResult cfg.moduleId ModuleStatus.error (cfg.catchReportPrefix ++ msg)
        (some cfg.catchFixes) (createMetadata cfg.defaultPrompt options now), 1)

/-- Case-insensitive match of `pat` against the start of `s`
(JS regex `i` flag, ASCII case folding via `Char.toLower`). -/
def ciMatchAt (pat : List Char) (s : List Char) : Bool :=
  match pat, s with
  | [], _ => true
  | _ :: _, [] => false
  | a :: pat', b :: s' => a.toLower = b.toLower && ciMatchAt pat' s'

/-- Leftmost case-insensitive occurrence of `pat`: the suffix just after the
first occurrence, or `none` (JS `match` returning `null`). -/
def dropAfterCi (pat : List Char) : List Char → Option (List Char)
  | [] => none
  | a :: s =>
    if ciMatchAt pat (a :: s) then some ((a :: s).drop pat.length)
    else dropAfterCi pat s

/-- The characters before the first case-insensitive occurrence of `pat`
(all of `s` when there is none): the lazy group `(.*?)` with lookahead
`(?=pat|$)` under the `s` flag. -/
def takeToCi (pat : List Char) : List Char → List Char
  | [] => []
  | a :: s => if ciMatchAt pat (a :: s) then [] else a :: takeToCi pat s

/-- `text.split('\n')` on a character list. -/
def splitLines : List Char → List (List Char)
  | [] => [[]]
  | c :: s =>
    if c = '\n' then [] :: splitLines s
    else
      match splitLines s with
      | [] => [[c]]
      | l :: ls => (c :: l) :: ls

/-- Append a character to the last line of a non-empty line list (the
effect of one trailing non-newline character on `splitLines`). -/
def appendLast : List (List Char) → Char → List (List Char)
  | [], c => [[c]]
  | [l], c => [l ++ [c]]
  | l :: l2 :: ls, c => l :: appendLast (l2 :: ls) c

/-- Case-sensitive `startsWith` on character lists. -/
def startsWithChars (pat : List Char) (s : List Char) : Bool :=
  match pat, s with
  | [], _ => true
  | _ :: _, [] => false
  | a :: pat', b :: s' => a = b && startsWithChars pat' s'

/-- The `RECOMMENDATIONS:` marker. -/
def recMarker : List Char := "RECOMMENDATIONS:".toList

/-- The `OVERALL_ASSESSMENT:` marker. -/
def assessMarker : List Char := "OVERALL_ASSESSMENT:".toList

/-- The filter of `parseFactCheckResults`:
`line.length > 0 && !line.startsWith('RECOMMENDATIONS:')`. -/
def lineFilter (l : List Char) : Bool :=
  decide (0 < l.length) && !(startsWithChars recMarker l)

/-- `recommendationsText` of `parseFactCheckResults`: the trimmed group of
the regex `RECOMMENDATIONS:(.*?)(?=OVERALL_ASSESSMENT:|$)` with flags `is`
(`''` when the regex does not match). -/
def recommendationsTextOf (completion : String) : List Char :=
  match dropAfterCi recMarker completion.toList with
  | none => []
  | some s => trimChars (takeToCi assessMarker s)

/-- The recommended-fixes extraction of `parseFactCheckResults`: the trimmed
group split on newlines, each line trimmed, empty lines and lines starting
with `RECOMMENDATIONS:` removed. -/
def extractRecommendedFixes (completion : String) : List String :=
  (((splitLines (recommendationsTextOf completion)).map trimChars).filter lineFilter).map
    fun l => String.mk l

/-- The status-token scan of `parseFactCheckResults`: the regex
`OVERALL_ASSESSMENT:\s*(PASS|PASS_WITH_WARNINGS|FAIL)` with flag `i` —
leftmost start position, greedy `\s*`, alternatives tried left to right,
the captured group upper-cased. -/
def findAssessToken : List Char → Option String
  | [] => none
  | c :: s =>
    if ciMatchAt assessMarker (c :: s) then
      let after := ((c :: s).drop assessMarker.length).dropWhile isWs
      if ciMatchAt "PASS".toList after then some "PASS"
      else if ciMatchAt "PASS_WITH_WARNINGS".toList after then some "PASS_WITH_WARNINGS"
      else if ciMatchAt "FAIL".toList after then some "FAIL"
      else findAssessToken s
    else findAssessToken s

/-- `overallAssessment`: the matched token or `'UNKNOWN'`. -/
def overallAssessmentOf (completion : String) : String :=
  match findAssessToken completion.toList with
  | some tok => tok
  | none => "UNKNOWN"

/-- The `switch (overallAssessment)` of `parseFactCheckResults`. -/
def statusOfAssessment (a : String) : ModuleStatus :=
  if a = "PASS" then ModuleStatus.success
  else if a = "PASS_WITH_WARNINGS" then ModuleStatus.warning
  else if a = "FAIL" then ModuleStatus.error
  else ModuleStatus.warning

/-- `FactCheckLayer.parseFactCheckResults`: the report is the completion
kept verbatim. -/
def parseFactCheckResults (completion : String) : String × ModuleStatus × List String :=
  (completion, statusOfAssessment (overallAssessmentOf completion),
    extractRecommendedFixes completion)

/-- `FactCheckLayer.getDefaultPrompt` (template literal kept verbatim). -/
def factCheckDefaultPrompt : String :=
"
You are a fact-checking expert tasked with validating the factual accuracy of the provided content.
Analyze the text for:
1. Factual claims that can be verified
2. Speculative or fabricated statements presented as facts
3. Misleading statistics or data
4. Unsupported generalizations

For each identified issue:
- Quote the exact text
- Explain why it\x27s problematic
- Assign a risk level (LOW, MEDIUM, HIGH)
- Suggest a correction or clarification if possible
- Provide a source for verification when available

Format your response as follows:
SUMMARY: Brief overview of the fact check results
ISSUES: List of identified issues with details
RECOMMENDATIONS: Suggested fixes or improvements
OVERALL_ASSESSMENT: Either \"PASS\", \"PASS_WITH_WARNINGS\", or \"FAIL\"
    "

/-- The `ModuleConfig` of `FactCheckLayer`. -/
def factCheckConfig : ModuleConfig :=
  { moduleId := "FactCheckLayer"
    defaultPrompt := factCheckDefaultPrompt
    invalidInputFixes := ["Provide non-empty content for fact checking"]
    catchReportPrefix := "Error during fact checking: "
    catchFixes := ["Retry the fact checking process", "Check API connectivity"]
    parse := parseFactCheckResults }

/-- `FactCheckLayer.process` against a given completion provider. -/
def factCheckProcess (provider : String → Except String String)
    (input : ContentInput) (options : Option ModuleOptions) (now : String) :
    ModuleResult × Nat :=
  moduleProcess factCheckConfig provider input options now

/-- The lines the spec's round-trip sentence describes: the trimmed,
non-empty lines of the text strictly between the two markers, in order. -/
def specLinesBetweenMarkers (mid : String) : List String :=
  (((splitLines mid.toList).map trimChars).filter fun l => decide (0 < l.length)).map
    fun l => String.mk l

/-- A sample content record with non-blank content. -/
def input0 : ContentInput := { content := "Some content" }

/-- A content record whose content is whitespace-only. -/
def blankInput : ContentInput := { content := "   " }

/-- A fixed module result used by the constant test modules. -/
def okResult (id : String) (st : ModuleStatus) : ModuleResult :=
  { moduleId := id
    status := st
    report := "report"
    recommendedFixes := none
    metadata := { timestamp := "t", promptUsed := "p", modelVersion := "m" } }

/-- A module whose `process` always resolves with a fixed status. -/
def constModule (id : String) (st : ModuleStatus) : ContentGuardianModule :=
  { moduleId := id, process := fun _ _ => Except.ok (okResult id st) }

/-- A registry holding the single success module `A`. -/
def regA : Registry := fun id =>
  if id = "A" then some (constModule "A" ModuleStatus.success) else none

/-- A registry holding a success module `A`, a warning module `B` and an
error module `E`. -/
def regABE : Registry := fun id =>
  if id = "A" then some (constModule "A" ModuleStatus.success)
  else if id = "B" then some (constModule "B" ModuleStatus.warning)
  else if id = "E" then some (constModule "E" ModuleStatus.error)
  else none

/-- The empty registry. -/
def emptyReg : Registry := fun _ => none

/-- A module whose `process` throws. -/
def throwingModule : ContentGuardianModule :=
  { moduleId := "Thrower", process := fun _ _ => Except.error "boom" }

/-- A registry holding only the throwing module. -/
def regThrower : Registry := fun id =>
  if id = "Thrower" then some throwingModule else none

/-- Workflow options leaving `sequential` unspecified. -/
def woDefaultMode : WorkflowOptions := { modules := ["A", "Missing"] }

/-- The same module list with `sequential` explicitly true. -/
def woSeqMode : WorkflowOptions := { modules := ["A", "Missing"], sequential := some true }

/-- Sequential run of an unregistered id with `stopOnError`. -/
def woStopMissing : WorkflowOptions :=
  { modules := ["Missing"], sequential := some true, stopOnError := some true }

/-- Sequential run hitting an unregistered id without `stopOnError`. -/
def woNoStopMissing : WorkflowOptions :=
  { modules := ["Missing", "A"], sequential := some true, stopOnError := some false }

/-- Sequential run with `stopOnError` set. -/
def woStopEA : WorkflowOptions :=
  { modules := ["E", "A"], sequential := some true, stopOnError := some true }

/-- Sequential run of two registered modules. -/
def woSeqAB : WorkflowOptions := { modules := ["A", "B"], sequential := some true }

/-- A provider that always resolves with a fixed completion. -/
def okProvider : String → Except String String :=
  fun _ => Except.ok "OVERALL_ASSESSMENT: PASS"

/-- A provider that echoes the prompt it was sent, making the prompt
observable in the completion. -/
def echoProvider : String → Except String String := fun p => Except.ok p

/-- Module options carrying a custom prompt. -/
def optsCustom : ModuleOptions := { customPrompt := some "P" }

theorem runModule_isOk_of_registered (reg : Registry) (moduleId : String)
    (input : ContentInput) (options : Option ModuleOptions) (now : String)
    (h : (reg moduleId).isSome = true) :
    exceptOk (runModule reg moduleId input options now) = true := by
  obtain ⟨m, hm⟩ := Option.isSome_iff_exists.mp h
  cases hp : m.process input options <;> simp [runModule, hm, hp, exceptOk]

/-- C3: `runModule` throws exactly for an unregistered id, with a message
naming it; for a registered module it always resolves, and an exception
escaping `process` is converted into an `error` result whose report carries
the exception message. -/
theorem runModule_contract (reg : Registry) (moduleId : String) (input : ContentInput)
    (options : Option ModuleOptions) (now : String) :
    (reg moduleId = none →
      runModule reg moduleId input options now =
        Except.error ("Module " ++ moduleId ++ " not found"))
    ∧ ∀ m, reg moduleId = some m →
        (∃ r, runModule reg moduleId input options now = Except.ok r)
        ∧ ∀ msg, m.process input options = Except.error msg →
            ∃ r, runModule reg moduleId input options now = Except.ok r
              ∧ r.status = ModuleStatus.error
              ∧ r.report = "Error running module: " ++ msg := by
  refine ⟨fun h => by simp [runModule, h], fun m hm => ⟨?_, fun msg hmsg => ?_⟩⟩
  · cases hp : m.process input options with
    | ok r => exact ⟨r, by simp [runModule, hm, hp]⟩
    | error e =>
      have hres : runModule reg moduleId input options now = Except.ok
          ({ moduleId := moduleId
             status := ModuleStatus.error
             report := "Error running module: " ++ e
             recommendedFixes := none
             metadata :=
               { timestamp := now
                 promptUsed := jsOr (options.bind ModuleOptions.customPrompt) "default"
                 modelVersion := jsOr (options.bind ModuleOptions.model) "default-model" } }
            : ModuleResult) := by
        simp only [runModule, hm, hp]
      exact ⟨_, hres⟩
  · have hres : runModule reg moduleId input options now = Except.ok
        ({ moduleId := moduleId
           status := ModuleStatus.error
           report := "Error running module: " ++ msg
           recommendedFixes := none
           metadata :=
             { timestamp := now
               promptUsed := jsOr (options.bind ModuleOptions.customPrompt) "default"
               modelVersion := jsOr (options.bind ModuleOptions.model) "default-model" } }
          : ModuleResult) := by
      simp only [runModule, hm, hmsg]
    exact ⟨_, hres, rfl, rfl⟩

/-- Witness for C3 at concrete inputs: an unknown id throws with the
identifying message, and a registered throwing module yields an `error`
result instead of an exception. -/
theorem runModule_contract_witness :
    runModule emptyReg "DoesNotExist" input0 none "t" =
      Except.error ("Module " ++ "DoesNotExist" ++ " not found")
    ∧ ∃ r, runModule regThrower "Thrower" input0 none "t" = Except.ok r
        ∧ r.status = ModuleStatus.error
        ∧ r.report = "Error running module: " ++ "boom" :=
  ⟨(runModule_contract emptyReg "DoesNotExist" input0 none "t").1 rfl,
    ((runModule_contract regThrower "Thrower" input0 none "t").2 throwingModule rfl).2
      "boom" rfl⟩

/-- C4: on empty or whitespace-only content every module's `process`
returns an `error` result whose report starts with `Invalid input`, and the
completion provider is never called. -/
theorem invalid_input_short_circuits (cfg : ModuleConfig)
    (provider : String → Except String String) (input : ContentInput)
    (options : Option ModuleOptions) (now : String)
    (h : trimString input.content = "") :
    (moduleProcess cfg provider input options now).1.status = ModuleStatus.error
    ∧ startsWithChars "Invalid input".toList
        (moduleProcess cfg provider input options now).1.report.toList = true
    ∧ (moduleProcess cfg provider input options now).2 = 0 := by
  have hv : validateInput input = false := by simp [validateInput, h]
  have hred : moduleProcess cfg provider input options now =
      (createResult cfg.moduleId ModuleStatus.error "Invalid input: content is required"
        (some cfg.invalidInputFixes) (createMetadata cfg.defaultPrompt options now), 0) := by
    simp [moduleProcess, hv]
  rw [hred]
  refine ⟨rfl, ?_, rfl⟩
  simp only [createResult]
  decide

/-- Witness for C4: whitespace-only content on the fact-check module. -/
theorem invalid_input_short_circuits_witness :
    (factCheckProcess okProvider blankInput none "t").1.status = ModuleStatus.error
    ∧ startsWithChars "Invalid input".toList
        (factCheckProcess okProvider blankInput none "t").1.report.toList = true
    ∧ (factCheckProcess okProvider blankInput none "t").2 = 0 :=
  invalid_input_short_circuits factCheckConfig okProvider blankInput none "t" (by decide)

/-- C10: `createResult` sets `recommendedFixes` exactly when a non-empty
fixes list was supplied; an empty or missing list leaves the field absent. -/
theorem createResult_fixes_present_iff :
    (∀ mid st rep fixes md,
      (createResult mid st rep fixes md).recommendedFixes = none
        ↔ (fixes = none ∨ fixes = some []))
    ∧ ∀ mid st rep fixes md l,
      (createResult mid st rep fixes md).recommendedFixes = some l
        ↔ (fixes = some l ∧ l ≠ []) := by
  constructor
  · intro mid st rep fixes md
    cases fixes with
    | none => simp [createResult]
    | some f => cases f <;> simp [createResult]
  · intro mid st rep fixes md l
    cases fixes with
    | none => simp [createResult]
    | some f =>
      cases f with
      | nil => simp [createResult]
      | cons a as =>
        simp only [createResult, List.length_cons]
        constructor
        · intro hl
          simp at hl
          exact ⟨by rw [hl], by simp [← hl]⟩
        · intro ⟨hl, _⟩
          simp at hl
          simp [hl]

/-- C5 (code bug): on a completion whose token is `PASS_WITH_WARNINGS` the
ordered regex alternation `(PASS|PASS_WITH_WARNINGS|FAIL)` captures the
bare prefix `PASS`, so the parsed status is `success`, not the `warning`
that the mapping table and the module's own unit test prescribe. -/
theorem pass_with_warnings_parses_as_success :
    (parseFactCheckResults "OVERALL_ASSESSMENT: PASS_WITH_WARNINGS").2.1
      = ModuleStatus.success
    ∧ ModuleStatus.success ≠ ModuleStatus.warning := by
  refine ⟨?_, by decide⟩
  decide

/-- C7 (code bug): with `sequential` unspecified, `runWorkflow` takes the
parallel branch — `if (workflowOptions.sequential)` treats `undefined` as
falsy — observably differing from the explicit sequential run on the same
inputs, while the repository documents `sequential` as defaulting to true. -/
theorem default_mode_is_parallel :
    runWorkflow regA input0 woDefaultMode "t"
      = ⟨ModuleStatus.error, [], ["A", "Missing"]⟩
    ∧ runWorkflow regA input0 woDefaultMode "t" ≠ runWorkflow regA input0 woSeqMode "t" := by
  refine ⟨?_, ?_⟩ <;> decide

/-- C9 counterexample: with an echoing provider the report equals the
composed prompt that was sent, while `metadata.promptUsed` records only the
custom prompt — the two differ, refuting that `promptUsed` is the literal
prompt sent. -/
theorem promptUsed_not_composed_prompt :
    (factCheckProcess echoProvider input0 (some optsCustom) "t").1.report
      = preparePrompt factCheckDefaultPrompt input0 (some optsCustom)
    ∧ (factCheckProcess echoProvider input0 (some optsCustom) "t").1.metadata.promptUsed = "P"
    ∧ (factCheckProcess echoProvider input0 (some optsCustom) "t").1.metadata.promptUsed
      ≠ (factCheckProcess echoProvider input0 (some optsCustom) "t").1.report := by
  refine ⟨?_, ?_, ?_⟩ <;> decide

/-- C9 amended: for a successful invocation the report keeps the completion
verbatim, and `metadata.promptUsed` records the base prompt — the custom
prompt when supplied, else the default template — not the composed prompt
sent to the provider. -/
theorem report_verbatim_promptUsed_base (provider : String → Except String String)
    (input : ContentInput) (options : Option ModuleOptions) (now completion : String)
    (hval : validateInput input = true)
    (hprov : provider (preparePrompt factCheckDefaultPrompt input options)
      = Except.ok completion) :
    (factCheckProcess provider input options now).1.report = completion
    ∧ (factCheckProcess provider input options now).1.metadata.promptUsed
      = jsOr (options.bind ModuleOptions.customPrompt) factCheckDefaultPrompt := by
  have hcfg : factCheckConfig.defaultPrompt = factCheckDefaultPrompt := rfl
  constructor <;>
    simp [factCheckProcess, moduleProcess, hval, hcfg, hprov, factCheckConfig,
      parseFactCheckResults, createResult, createMetadata]

/-- Witness for C9 amended at a concrete successful invocation. -/
theorem report_verbatim_promptUsed_base_witness :
    (factCheckProcess (fun _ => Except.ok "done") input0 none "t").1.report = "done"
    ∧ (factCheckProcess (fun _ => Except.ok "done") input0 none "t").1.metadata.promptUsed
      = jsOr ((none : Option ModuleOptions).bind ModuleOptions.customPrompt)
          factCheckDefaultPrompt :=
  report_verbatim_promptUsed_base (fun _ => Except.ok "done") input0 none "t" "done"
    (by decide) rfl

/-- C8 counterexample: sequential mode without `stopOnError`: the exception
for the unregistered id `Missing` leaves the running status unchanged (the
catch only sets `error` under `stopOnError`), so the workflow ends with
status `success`, not the unconditional `error` state the claim asserts. -/
theorem seq_exception_keeps_status :
    (runWorkflow regA input0 woNoStopMissing "t").status = ModuleStatus.success
    ∧ (runWorkflow regA input0 woNoStopMissing "t").results
        = [okResult "A" ModuleStatus.success]
    ∧ ModuleStatus.success ≠ ModuleStatus.error := by
  refine ⟨?_, ?_, ?_⟩ <;> decide

/-- C8 amended: an exception escaping the per-module call site adds no
result; with `stopOnError` it sets the workflow status to `error` and
halts, without `stopOnError` it leaves the running status unchanged and
iteration continues. -/
theorem seq_exception_step (reg : Registry) (input : ContentInput) (wo : WorkflowOptions)
    (now : String) (id : String) (rest : List String) (results : List ModuleResult)
    (st : ModuleStatus) (invoked : List String) (msg : String)
    (h : runModule reg id input (wo.options id) now = Except.error msg) :
    runSeq reg input wo now (id :: rest) results st invoked =
      if jsTruthy wo.stopOnError then (results, ModuleStatus.error, invoked ++ [id])
      else runSeq reg input wo now rest results st (invoked ++ [id]) := by
  simp only [runSeq, h]

/-- Witness for C8 amended: the unregistered id `Missing` with
`stopOnError` halts with status `error` and no collected result. -/
theorem seq_exception_step_witness :
    runSeq regA input0 woStopMissing "t" ("Missing" :: []) [] ModuleStatus.success []
      = ([], ModuleStatus.error, ["Missing"]) := by
  rw [seq_exception_step regA input0 woStopMissing "t" "Missing" [] [] ModuleStatus.success
    [] ("Module " ++ "Missing" ++ " not found") rfl]
  decide

/-- C1 counterexample: sequential + `stopOnError` with the unregistered id
`Missing`: the exception sets the workflow status to `error` while no
module result was collected, so the status is not the worst-of of the
collected results. -/
theorem workflow_worstOf_counterexample :
    (runWorkflow regA input0 woStopMissing "t").status = ModuleStatus.error
    ∧ worstOf (runWorkflow regA input0 woStopMissing "t").results = ModuleStatus.success
    ∧ (runWorkflow regA input0 woStopMissing "t").status
      ≠ worstOf (runWorkflow regA input0 woStopMissing "t").results := by
  refine ⟨?_, ?_, ?_⟩ <;> decide

theorem worstOf_eq_error_iff (l : List ModuleResult) :
    worstOf l = ModuleStatus.error
      ↔ (l.any fun r => r.status = ModuleStatus.error) = true := by
  unfold worstOf
  by_cases h1 : (l.any fun r => r.status = ModuleStatus.error) = true
  · simp [h1]
  · simp only [h1, if_false, Bool.not_eq_true] at *
    simp [h1]
    split <;> simp

theorem worstOf_snoc_error (l : List ModuleResult) (r : ModuleResult)
    (h : r.status = ModuleStatus.error) :
    worstOf (l ++ [r]) = ModuleStatus.error := by
  simp [worstOf, List.any_append, h]

theorem worstOf_snoc_success (l : List ModuleResult) (r : ModuleResult)
    (h : r.status = ModuleStatus.success) :
    worstOf (l ++ [r]) = worstOf l := by
  simp [worstOf, List.any_append, h]

theorem worstOf_snoc_warning (l : List ModuleResult) (r : ModuleResult)
    (h : r.status = ModuleStatus.warning) :
    worstOf (l ++ [r]) =
      if worstOf l = ModuleStatus.error then ModuleStatus.error
      else ModuleStatus.warning := by
  by_cases h1 : (l.any fun x => x.status = ModuleStatus.error) = true
  · rw [if_pos ((worstOf_eq_error_iff l).mpr h1)]
    simp [worstOf, List.any_append, h, h1]
  · rw [if_neg fun hc => h1 ((worstOf_eq_error_iff l).mp hc)]
    simp [worstOf, List.any_append, h, h1]

theorem runSeq_status_worstOf (reg : Registry) (input : ContentInput)
    (wo : WorkflowOptions) (now : String) :
    ∀ (mods : List String) (results : List ModuleResult) (invoked : List String),
      (∀ id ∈ mods, (reg id).isSome = true) →
      (runSeq reg input wo now mods results (worstOf results) invoked).2.1 =
        worstOf (runSeq reg input wo now mods results (worstOf results) invoked).1 := by
  intro mods
  induction mods with
  | nil => intro results invoked h; simp [runSeq]
  | cons id rest ih =>
    intro results invoked h
    have hid : (reg id).isSome = true := h id (List.mem_cons_self id rest)
    have hrest : ∀ i ∈ rest, (reg i).isSome = true :=
      fun i hi => h i (List.mem_cons_of_mem id hi)
    cases hrm : runModule reg id input (wo.options id) now with
    | error e =>
      exfalso
      have hok := runModule_isOk_of_registered reg id input (wo.options id) now hid
      rw [hrm] at hok
      simp [exceptOk] at hok
    | ok result =>
      simp only [runSeq, hrm]
      by_cases he : result.status = ModuleStatus.error
      · rw [if_pos he]
        by_cases hstop : jsTruthy wo.stopOnError = true
        · simp only [hstop, if_true]
          exact (worstOf_snoc_error results result he).symm
        · simp only [Bool.not_eq_true] at hstop
          simp only [hstop, Bool.false_eq_true, if_false]
          have hw : ModuleStatus.error = worstOf (results ++ [result]) :=
            (worstOf_snoc_error results result he).symm
          rw [hw]
          exact ih (results ++ [result]) (invoked ++ [id]) hrest
      · rw [if_neg he]
        by_cases hwarn : result.status = ModuleStatus.warning
        · by_cases herr : worstOf results = ModuleStatus.error
          · have hcond : ¬(result.status = ModuleStatus.warning
                ∧ worstOf results ≠ ModuleStatus.error) := fun hc => hc.2 herr
            rw [if_neg hcond]
            have hw : worstOf results = worstOf (results ++ [result]) := by
              rw [worstOf_snoc_warning results result hwarn, if_pos herr, herr]
            rw [hw]
            exact ih (results ++ [result]) (invoked ++ [id]) hrest
          · have hcond : result.status = ModuleStatus.warning
                ∧ worstOf results ≠ ModuleStatus.error := ⟨hwarn, herr⟩
            rw [if_pos hcond]
            have hw : ModuleStatus.warning = worstOf (results ++ [result]) := by
              rw [worstOf_snoc_warning results result hwarn, if_neg herr]
            rw [hw]
            exact ih (results ++ [result]) (invoked ++ [id]) hrest
        · have hsucc : result.status = ModuleStatus.success := by
            cases hs : result.status
            · rfl
            · exact absurd hs hwarn
            · exact absurd hs he
          have hcond : ¬(result.status = ModuleStatus.warning
              ∧ worstOf results ≠ ModuleStatus.error) := fun hc => hwarn hc.1
          rw [if_neg hcond]
          have hw : worstOf results = worstOf (results ++ [result]) :=
            (worstOf_snoc_success results result hsucc).symm
          rw [hw]
          exact ih (results ++ [result]) (invoked ++ [id]) hrest

theorem runPar_status_worstOf (reg : Registry) (input : ContentInput)
    (wo : WorkflowOptions) (now : String)
    (h : ∀ id ∈ wo.modules, (reg id).isSome = true) :
    (runPar reg input wo now).2.1 = worstOf (runPar reg input wo now).1 := by
  have hall : ((wo.modules.map fun id =>
      runModule reg id input (wo.options id) now).all exceptOk) = true := by
    rw [List.all_eq_true]
    intro o ho
    obtain ⟨id, hid, rfl⟩ := List.mem_map.mp ho
    exact runModule_isOk_of_registered reg id input (wo.options id) now (h id hid)
  simp only [runPar, hall, if_true]
  rfl

/-- C1 amended: for every workflow whose listed module ids are all
registered (so no exception escapes the per-module call site), the final
status equals the worst-of over the collected results — `error` if any
collected result is `error`, else `warning` if any is `warning`, else
`success` — in both modes and for any `stopOnError` setting. -/
theorem workflow_status_is_worstOf (reg : Registry) (input : ContentInput)
    (wo : WorkflowOptions) (now : String)
    (h : ∀ id ∈ wo.modules, (reg id).isSome = true) :
    (runWorkflow reg input wo now).status
      = worstOf (runWorkflow reg input wo now).results := by
  by_cases hseq : jsTruthy wo.sequential = true
  · simp only [runWorkflow, hseq, if_true]
    have h0 : ModuleStatus.success = worstOf [] := by simp [worstOf]
    rw [h0]
    exact runSeq_status_worstOf reg input wo now wo.modules [] [] h
  · simp only [Bool.not_eq_true] at hseq
    simp only [runWorkflow, hseq, Bool.false_eq_true, if_false]
    exact runPar_status_worstOf reg input wo now h

/-- Witness for C1 amended: a sequential success/warning pair of registered
modules. -/
theorem workflow_status_is_worstOf_witness :
    (runWorkflow regABE input0 woSeqAB "t").status
      = worstOf (runWorkflow regABE input0 woSeqAB "t").results :=
  workflow_status_is_worstOf regABE input0 woSeqAB "t" (by decide)

theorem snoc_eq_append_cons {α : Type} (P : α → Prop) :
    ∀ (pre acc : List α) (a r : α) (suf : List α),
      (∀ x ∈ acc, ¬ P x) → P r →
      acc ++ [a] = pre ++ r :: suf →
      pre = acc ∧ r = a ∧ suf = [] := by
  intro pre
  induction pre with
  | nil =>
    intro acc a r suf hacc hr h
    cases acc with
    | nil =>
      simp only [List.nil_append] at h
      obtain ⟨h1, h2⟩ := List.cons.inj h
      exact ⟨rfl, h1.symm, h2.symm⟩
    | cons b acc' =>
      simp only [List.cons_append, List.nil_append] at h
      obtain ⟨hb, -⟩ := List.cons.inj h
      have hPb : P b := by rw [hb]; exact hr
      exact absurd hPb (hacc b (List.mem_cons_self b acc'))
  | cons p pre' ih =>
    intro acc a r suf hacc hr h
    cases acc with
    | nil =>
      simp only [List.nil_append, List.cons_append] at h
      have hlen := congrArg List.length h
      simp [List.length_append] at hlen
    | cons b acc' =>
      simp only [List.cons_append] at h
      obtain ⟨hb, h'⟩ := List.cons.inj h
      have hacc' : ∀ x ∈ acc', ¬ P x := fun x hx => hacc x (List.mem_cons_of_mem b hx)
      obtain ⟨h1, h2, h3⟩ := ih acc' a r suf hacc' hr h'
      exact ⟨by rw [hb, h1], h2, h3⟩

theorem runSeq_stop_first_error (reg : Registry) (input : ContentInput)
    (wo : WorkflowOptions) (now : String) (hstop : jsTruthy wo.stopOnError = true) :
    ∀ (mods : List String) (acc : List ModuleResult) (st : ModuleStatus)
      (inv : List String),
      (∀ x ∈ acc, x.status ≠ ModuleStatus.error) →
      ∀ (pre : List ModuleResult) (r : ModuleResult) (suf : List ModuleResult),
        (runSeq reg input wo now mods acc st inv).1 = pre ++ r :: suf →
        r.status = ModuleStatus.error →
        suf = [] ∧ (∃ t, pre = acc ++ t)
          ∧ (runSeq reg input wo now mods acc st inv).2.2
              = inv ++ mods.take (pre.length + 1 - acc.length) := by
  intro mods
  induction mods with
  | nil =>
    intro acc st inv hacc pre r suf hres herr
    simp only [runSeq] at hres
    have hrmem : r ∈ acc := by
      rw [hres]; exact List.mem_append_right pre (List.mem_cons_self r suf)
    exact absurd herr (hacc r hrmem)
  | cons id rest ih =>
    intro acc st inv hacc pre r suf hres herr
    cases hrm : runModule reg id input (wo.options id) now with
    | error e =>
      simp only [runSeq, hrm, hstop, if_true] at hres ⊢
      have hrmem : r ∈ acc := by
        rw [hres]; exact List.mem_append_right pre (List.mem_cons_self r suf)
      exact absurd herr (hacc r hrmem)
    | ok result =>
      by_cases he : result.status = ModuleStatus.error
      · simp only [runSeq, hrm, if_pos he, hstop, if_true] at hres ⊢
        obtain ⟨h1, h2, h3⟩ := snoc_eq_append_cons
          (fun x => x.status = ModuleStatus.error) pre acc result r suf hacc herr hres
        refine ⟨h3, ⟨[], by simp [h1]⟩, ?_⟩
        rw [h1]
        simp
      · simp only [runSeq, hrm, if_neg he] at hres ⊢
        have hacc' : ∀ x ∈ acc ++ [result], x.status ≠ ModuleStatus.error := by
          intro x hx
          rcases List.mem_append.mp hx with hx1 | hx2
          · exact hacc x hx1
          · rw [List.mem_singleton.mp hx2]; exact he
        obtain ⟨h3, ⟨t, ht⟩, hinv⟩ :=
          ih (acc ++ [result]) _ (inv ++ [id]) hacc' pre r suf hres herr
        refine ⟨h3, ⟨result :: t, by rw [ht]; simp⟩, ?_⟩
        have hlen : pre.length = acc.length + 1 + t.length := by
          rw [ht]; simp [List.length_append]; omega
        have hk1 : pre.length + 1 - (acc ++ [result]).length = t.length + 1 := by
          simp only [List.length_append, List.length_cons, List.length_nil]
          omega
        have hk2 : pre.length + 1 - acc.length = (t.length + 1) + 1 := by omega
        rw [hinv, hk1, hk2, List.take_succ_cons, List.append_assoc]
        rfl

/-- C2: in a sequential workflow with `stopOnError`, whenever the collected
results decompose as non-error results followed by an `error` result, that
error result is the last one collected — execution halted there — and
exactly the ids up to and including that position were invoked. -/
theorem seq_stop_halts_after_first_error (reg : Registry) (input : ContentInput)
    (wo : WorkflowOptions) (now : String)
    (hseq : wo.sequential = some true) (hstop : wo.stopOnError = some true)
    (pre : List ModuleResult) (r : ModuleResult) (suf : List ModuleResult)
    (hres : (runWorkflow reg input wo now).results = pre ++ r :: suf)
    (herr : r.status = ModuleStatus.error)
    (hpre : ∀ x ∈ pre, x.status ≠ ModuleStatus.error) :
    (runWorkflow reg input wo now).results = pre ++ [r]
    ∧ (runWorkflow reg input wo now).invoked = wo.modules.take (pre.length + 1) := by
  have hseqT : jsTruthy wo.sequential = true := by rw [hseq]; rfl
  have hstopT : jsTruthy wo.stopOnError = true := by rw [hstop]; rfl
  have hwr : runWorkflow reg input wo now =
      ⟨(runSeq reg input wo now wo.modules [] ModuleStatus.success []).2.1,
       (runSeq reg input wo now wo.modules [] ModuleStatus.success []).1,
       (runSeq reg input wo now wo.modules [] ModuleStatus.success []).2.2⟩ := by
    simp [runWorkflow, hseqT]
  rw [hwr] at hres ⊢
  obtain ⟨h3, -, hinv⟩ := runSeq_stop_first_error reg input wo now hstopT
    wo.modules [] ModuleStatus.success [] (by intro x hx; cases hx) pre r suf hres herr
  subst h3
  exact ⟨hres, by simpa using hinv⟩

/-- Witness for C2: the list `[E, A]` where `E` yields an error result —
one collected result and `A` never invoked. -/
theorem seq_stop_halts_after_first_error_witness :
    (runWorkflow regABE input0 woStopEA "t").results
      = [] ++ [okResult "E" ModuleStatus.error]
    ∧ (runWorkflow regABE input0 woStopEA "t").invoked
      = woStopEA.modules.take ((List.length ([] : List ModuleResult)) + 1) :=
  seq_stop_halts_after_first_error regABE input0 woStopEA "t" rfl rfl
    [] (okResult "E" ModuleStatus.error) [] (by decide) (by decide)
    (by intro x hx; cases hx)

theorem ciMatchAt_self_append (m t : List Char) : ciMatchAt m (m ++ t) = true := by
  induction m with
  | nil => rfl
  | cons a m' ih => simp [ciMatchAt, ih]

theorem ciMatchAt_of_append (m s t : List Char) (h : s = m ++ t) :
    ciMatchAt m s = true := by
  rw [h]; exact ciMatchAt_self_append m t

theorem dropAfterCi_append (m rest : List Char) (hm : m ≠ []) :
    ∀ pre : List Char,
      (∀ p ∈ pre.tails, p ≠ [] → ciMatchAt m (p ++ (m ++ rest)) = false) →
      dropAfterCi m (pre ++ (m ++ rest)) = some rest := by
  intro pre
  induction pre with
  | nil =>
    intro _
    cases m with
    | nil => exact absurd rfl hm
    | cons a m' =>
      simp only [List.nil_append, List.cons_append, dropAfterCi]
      split
      · simp only [List.append_eq]
        rw [show a :: (m' ++ rest) = (a :: m') ++ rest by simp, List.drop_left]
      · rename_i hcond
        exact absurd (ciMatchAt_of_append (a :: m') (a :: (m' ++ rest)) rest (by simp)) hcond
  | cons c pre' ih =>
    intro h
    have hfalse : ciMatchAt m (c :: (pre' ++ (m ++ rest))) = false := by
      have := h (c :: pre') ((List.mem_tails _ _).mpr (List.suffix_refl _)) (by simp)
      simpa using this
    simp only [List.cons_append, dropAfterCi]
    split
    · rename_i hcond
      simp only [List.append_eq] at hcond
      rw [hfalse] at hcond
      cases hcond
    · exact ih fun q hq hq0 =>
        h q ((List.mem_tails _ _).mpr
          (((List.mem_tails _ _).mp hq).trans (List.suffix_cons c pre'))) hq0

theorem takeToCi_append (m post : List Char) (hm : m ≠ []) :
    ∀ mid : List Char,
      (∀ q ∈ mid.tails, q ≠ [] → ciMatchAt m (q ++ (m ++ post)) = false) →
      takeToCi m (mid ++ (m ++ post)) = mid := by
  intro mid
  induction mid with
  | nil =>
    intro _
    cases m with
    | nil => exact absurd rfl hm
    | cons a m' =>
      simp only [List.nil_append, List.cons_append, takeToCi]
      split
      · rfl
      · rename_i hcond
        exact absurd (ciMatchAt_of_append (a :: m') (a :: (m' ++ post)) post (by simp)) hcond
  | cons c mid' ih =>
    intro h
    have hfalse : ciMatchAt m (c :: (mid' ++ (m ++ post))) = false := by
      have := h (c :: mid') ((List.mem_tails _ _).mpr (List.suffix_refl _)) (by simp)
      simpa using this
    simp only [List.cons_append, takeToCi]
    split
    · rename_i hcond
      simp only [List.append_eq] at hcond
      rw [hfalse] at hcond
      cases hcond
    · exact congrArg (fun t => c :: t) (ih fun q hq hq0 =>
        h q ((List.mem_tails _ _).mpr
          (((List.mem_tails _ _).mp hq).trans (List.suffix_cons c mid'))) hq0)

theorem splitLines_ne_nil (s : List Char) : splitLines s ≠ [] := by
  cases s with
  | nil => simp [splitLines]
  | cons c s' =>
    simp only [splitLines]
    split
    · simp
    · cases h : splitLines s' <;> simp

theorem trimChars_cons_ws (c : Char) (l : List Char) (h : isWs c = true) :
    trimChars (c :: l) = trimChars l := by
  simp [trimChars, List.dropWhile_cons_of_pos h]

theorem trimChars_snoc_ws (l : List Char) (c : Char) (h : isWs c = true) :
    trimChars (l ++ [c]) = trimChars l := by
  unfold trimChars
  rw [List.dropWhile_append]
  by_cases hd : (List.dropWhile isWs l).isEmpty = true
  · rw [if_pos hd]
    rw [List.isEmpty_iff] at hd
    rw [hd]
    simp [List.dropWhile_cons_of_pos h]
  · rw [if_neg hd]
    exact List.rdropWhile_concat_pos isWs (List.dropWhile isWs l) c h

theorem splitLines_snoc_newline (u : List Char) :
    splitLines (u ++ ['\n']) = splitLines u ++ [[]] := by
  induction u with
  | nil => rfl
  | cons a u' ih =>
    simp only [List.cons_append, List.append_eq, splitLines]
    by_cases ha : a = '\n'
    · simp [ha, ih]
    · simp only [ha, if_false]
      rw [ih]
      cases hsp : splitLines u' with
      | nil => exact absurd hsp (splitLines_ne_nil u')
      | cons l ls => simp

theorem splitLines_snoc (u : List Char) (c : Char) (hc : ¬ c = '\n') :
    splitLines (u ++ [c]) = appendLast (splitLines u) c := by
  induction u with
  | nil => simp [splitLines, hc, appendLast]
  | cons a u' ih =>
    simp only [List.cons_append, List.append_eq, splitLines]
    by_cases ha : a = '\n'
    · simp only [ha, if_true]
      rw [ih]
      cases hsp : splitLines u' with
      | nil => exact absurd hsp (splitLines_ne_nil u')
      | cons l ls => simp [appendLast]
    · simp only [ha, if_false]
      rw [ih]
      cases hsp : splitLines u' with
      | nil => exact absurd hsp (splitLines_ne_nil u')
      | cons l ls =>
        cases ls with
        | nil => simp [appendLast]
        | cons l2 ls2 => simp [appendLast]

theorem fixLines_snoc_ws (u : List Char) (c : Char) (hwc : isWs c = true) :
    ((splitLines (u ++ [c])).map trimChars).filter lineFilter
      = ((splitLines u).map trimChars).filter lineFilter := by
  by_cases hc : c = '\n'
  · subst hc
    rw [splitLines_snoc_newline]
    simp [lineFilter, trimChars, List.filter_append]
  · rw [splitLines_snoc u c hc]
    have hgen : ∀ ls : List (List Char), ls ≠ [] →
        ((appendLast ls c).map trimChars).filter lineFilter
          = (ls.map trimChars).filter lineFilter := by
      intro ls
      induction ls with
      | nil => intro hne; exact absurd rfl hne
      | cons l ls' ih =>
        intro _
        cases ls' with
        | nil => simp [appendLast, trimChars_snoc_ws l c hwc]
        | cons l2 ls2 =>
          simp only [appendLast, List.map_cons, List.filter_cons]
          rw [ih (by simp)]
          simp only [List.map_cons, List.filter_cons]
    exact hgen (splitLines u) (splitLines_ne_nil u)

theorem fixLines_cons_newline (s : List Char) :
    ((splitLines ('\n' :: s)).map trimChars).filter lineFilter
      = ((splitLines s).map trimChars).filter lineFilter := by
  simp only [splitLines, if_pos rfl]
  simp [lineFilter, trimChars]

theorem fixLines_cons_ws (c : Char) (s : List Char) (hwc : isWs c = true)
    (hc : ¬ c = '\n') :
    ((splitLines (c :: s)).map trimChars).filter lineFilter
      = ((splitLines s).map trimChars).filter lineFilter := by
  simp only [splitLines, hc, if_false]
  cases hsp : splitLines s with
  | nil => exact absurd hsp (splitLines_ne_nil s)
  | cons l ls =>
    simp only [hsp]
    simp only [List.map_cons, List.filter_cons, trimChars_cons_ws c l hwc]

theorem fixLines_dropWhile (s : List Char) :
    ((splitLines (List.dropWhile isWs s)).map trimChars).filter lineFilter
      = ((splitLines s).map trimChars).filter lineFilter := by
  induction s with
  | nil => rfl
  | cons c s' ih =>
    by_cases hw : isWs c = true
    · rw [List.dropWhile_cons_of_pos hw, ih]
      by_cases hc : c = '\n'
      · subst hc
        exact (fixLines_cons_newline s').symm
      · exact (fixLines_cons_ws c s' hw hc).symm
    · rw [List.dropWhile_cons_of_neg hw]

theorem fixLines_rdropWhile (s : List Char) :
    ((splitLines (List.rdropWhile isWs s)).map trimChars).filter lineFilter
      = ((splitLines s).map trimChars).filter lineFilter := by
  induction s using List.reverseRecOn with
  | nil => rfl
  | append_singleton u c ih =>
    by_cases hw : isWs c = true
    · rw [List.rdropWhile_concat_pos isWs u c hw, ih]
      exact (fixLines_snoc_ws u c hw).symm
    · rw [List.rdropWhile_concat_neg isWs u c hw]

theorem fixLines_trimChars (s : List Char) :
    ((splitLines (trimChars s)).map trimChars).filter lineFilter
      = ((splitLines s).map trimChars).filter lineFilter := by
  have h : trimChars s = List.rdropWhile isWs (List.dropWhile isWs s) := rfl
  rw [h, fixLines_rdropWhile, fixLines_dropWhile]

/-- C6 counterexample: a completion whose text between the two markers is a
trimmed, non-empty line that itself starts with `RECOMMENDATIONS:` — the
extraction's filter drops it, so the extracted list is not the full list of
trimmed non-empty lines between the markers. -/
theorem fixes_extraction_counterexample :
    extractRecommendedFixes ("RECOMMENDATIONS:" ++ "\nRECOMMENDATIONS: Add sources\n"
        ++ "OVERALL_ASSESSMENT:" ++ " PASS") = []
    ∧ specLinesBetweenMarkers "\nRECOMMENDATIONS: Add sources\n"
        = ["RECOMMENDATIONS: Add sources"]
    ∧ ([] : List String) ≠ ["RECOMMENDATIONS: Add sources"] := by
  refine ⟨?_, ?_, ?_⟩ <;> decide

/-- C6 amended: for a completion of the form
`pre ++ 'RECOMMENDATIONS:' ++ mid ++ 'OVERALL_ASSESSMENT:' ++ post` — with
the shown markers the first (case-insensitive) occurrences — the extracted
fixes are exactly the trimmed, non-empty lines of `mid`, in original order,
excluding lines that begin with `RECOMMENDATIONS:`. -/
theorem fixes_extraction_between_markers (pre mid post : String)
    (h1 : ∀ p ∈ pre.toList.tails, p ≠ [] →
      ciMatchAt recMarker
        (p ++ (recMarker ++ (mid.toList ++ (assessMarker ++ post.toList)))) = false)
    (h2 : ∀ q ∈ mid.toList.tails, q ≠ [] →
      ciMatchAt assessMarker (q ++ (assessMarker ++ post.toList)) = false) :
    extractRecommendedFixes
        (pre ++ "RECOMMENDATIONS:" ++ mid ++ "OVERALL_ASSESSMENT:" ++ post)
      = (((splitLines mid.toList).map trimChars).filter lineFilter).map
          fun l => String.mk l := by
  have htl : (pre ++ "RECOMMENDATIONS:" ++ mid ++ "OVERALL_ASSESSMENT:" ++ post).toList
      = pre.toList ++ (recMarker ++ (mid.toList ++ (assessMarker ++ post.toList))) := by
    simp only [String.toList, String.data_append, recMarker, assessMarker,
      List.append_assoc]
  have hdrop : dropAfterCi recMarker
      (pre ++ "RECOMMENDATIONS:" ++ mid ++ "OVERALL_ASSESSMENT:" ++ post).toList
      = some (mid.toList ++ (assessMarker ++ post.toList)) := by
    rw [htl]
    exact dropAfterCi_append recMarker (mid.toList ++ (assessMarker ++ post.toList))
      (by decide) pre.toList h1
  have htext : recommendationsTextOf
      (pre ++ "RECOMMENDATIONS:" ++ mid ++ "OVERALL_ASSESSMENT:" ++ post)
      = trimChars mid.toList := by
    unfold recommendationsTextOf
    rw [hdrop]
    show trimChars (takeToCi assessMarker (mid.toList ++ (assessMarker ++ post.toList)))
      = trimChars mid.toList
    rw [takeToCi_append assessMarker post.toList (by decide) mid.toList h2]
  unfold extractRecommendedFixes
  rw [htext, fixLines_trimChars]

/-- Witness for C6 amended at a concrete completion with two fix lines. -/
theorem fixes_extraction_between_markers_witness :
    extractRecommendedFixes ("Intro\n" ++ "RECOMMENDATIONS:"
        ++ "\n1. Add sources\n2. Cite studies\n" ++ "OVERALL_ASSESSMENT:" ++ " PASS")
      = ["1. Add sources", "2. Cite studies"] := by
  rw [fixes_extraction_between_markers "Intro\n" "\n1. Add sources\n2. Cite studies\n"
    " PASS" (by decide) (by decide)]
  decide
